import Mathlib

/-!
# Verification of the Henri core (provider streams, agent loop, permissions)

Shallow embedding of the Henri coding-assistant core:
* `henri/messages.py` — `ToolCall`, `ToolResult`, `Message`
* `henri/tools/base.py` — the tool interface and the file tools
* `henri/permissions.py` — `PermissionManager.check` and `_prompt_user`
* `henri/agent.py` — the tool-dispatch section of `Agent.chat`
* `henri/providers/{bedrock,vertex,openai_compatible}.py` — stream
  normalisation loops

External effects (filesystem, subprocesses, the JSON parser of the standard
library, path resolution) enter as explicit function parameters, so every
definition stays executable.
-/

/-! ## Message model (`henri/messages.py`) -/

/-- Tool-call arguments.  The Python side is a JSON object (`dict`); the
permission engine and the tools verified here read only string-valued
entries, so arguments are embedded as an association list of strings. -/
abbrev MArgs := List (String × String)

/-- `args.get(key, dflt)` on the argument mapping. -/
def argGet : MArgs → String → String → String
  | [], _, dflt => dflt
  | (k, v) :: rest, key, dflt => if k = key then v else argGet rest key dflt

/-- `henri.messages.ToolCall`: a request from the LLM to execute a tool. -/
structure ToolCall where
  id : String
  name : String
  args : MArgs
  deriving Repr, DecidableEq

/-- `henri.messages.ToolResult`: the result of executing a tool.
`is_error` defaults to `False` in the dataclass. -/
structure ToolResult where
  tool_call_id : String
  content : String
  is_error : Bool := false
  deriving Repr, DecidableEq

/-- `henri.messages.Message`. -/
structure Message where
  role : String
  content : String := ""
  tool_calls : List ToolCall := []
  tool_results : List ToolResult := []
  deriving Repr, DecidableEq

/-- `Message.user`. -/
def Message.userMsg (content : String) : Message :=
  { role := "user", content := content }

/-- `Message.assistant`. -/
def Message.assistantMsg (content : String) (tool_calls : List ToolCall) : Message :=
  { role := "assistant", content := content, tool_calls := tool_calls }

/-- `Message.tool_result`: the synthesized user-role message bundling a
turn's tool results. -/
def Message.toolResultMsg (results : List ToolResult) : Message :=
  { role := "user", tool_results := results }

/-! ## Tool interface (`henri/tools/base.py`)

`Tool.execute(**args) -> str` runs effects (filesystem, subprocesses) and
returns text.  At the dispatch level of `Agent.chat` only the returned text
is observed, so a tool is embedded as its name, its `requires_permission`
flag and a text-valued `run` function; the effectful tools are modelled
separately below with their effects explicit. -/

structure Tool where
  name : String
  requires_permission : Bool
  run : MArgs → String

/-- A filesystem entry as seen through `Path(p).expanduser()`:
the path does not exist, exists but is not a regular file, or is a regular
file with the given text content.  A filesystem is a map from (expanded)
path strings to entries. -/
inductive FsEntry where
  | absent
  | notFile
  | file (content : String)
  deriving Repr, DecidableEq

/-- `ReadFileTool.execute`: returns bracketed error text for a missing
path or a non-file, else the content (truncated beyond 100000 chars). -/
def ReadFileTool.execute (fs : String → FsEntry) (path : String) : String :=
  match fs path with
  | .absent => "[error: file not found: " ++ path ++ "]"
  | .notFile => "[error: not a file: " ++ path ++ "]"
  | .file content =>
      if 100000 < content.length then content.take 100000 ++ "\n[truncated...]"
      else content

/-- The `read_file` tool: `requires_permission = False` in the source
("Reading is generally safe"). -/
def readFileTool (fs : String → FsEntry) : Tool :=
  { name := "read_file", requires_permission := false,
    run := fun args => ReadFileTool.execute fs (argGet args "path" "") }

/-- The `grep` tool: `requires_permission = False` in the source
("Read-only operation").  Its `execute` shells out to ripgrep; that external
behaviour is the parameter `rg`. -/
def grepTool (rg : MArgs → String) : Tool :=
  { name := "grep", requires_permission := false, run := rg }

/-! ### Python string helpers for `edit_file`

`str.count` counts non-overlapping occurrences scanning left to right
(an empty needle counts `len + 1`); `str.replace` substitutes
non-overlapping occurrences in the same scan order. -/

/-- Non-overlapping occurrence count, scanning with a skip counter: after a
match at a position, the remaining `needle.length - 1` characters of the
match are skipped. -/
def countScan (needle : List Char) : Nat → List Char → Nat
  | _, [] => 0
  | k + 1, _ :: rest => countScan needle k rest
  | 0, c :: rest =>
      if needle.isPrefixOf (c :: rest) then 1 + countScan needle (needle.length - 1) rest
      else countScan needle 0 rest

/-- `s.count(sub)` (Python). -/
def pyCount (s sub : String) : Nat :=
  if sub.data.isEmpty then s.data.length + 1
  else countScan sub.data 0 s.data

/-- Replace every non-overlapping occurrence (nonempty needle). -/
def replaceScan (needle repl : List Char) : Nat → List Char → List Char
  | _, [] => []
  | k + 1, _ :: rest => replaceScan needle repl k rest
  | 0, c :: rest =>
      if needle.isPrefixOf (c :: rest) then repl ++ replaceScan needle repl (needle.length - 1) rest
      else c :: replaceScan needle repl 0 rest

/-- Replace the first occurrence only (nonempty needle). -/
def replaceOneScan (needle repl : List Char) : List Char → List Char
  | [] => []
  | c :: rest =>
      if needle.isPrefixOf (c :: rest) then repl ++ rest.drop (needle.length - 1)
      else c :: replaceOneScan needle repl rest

/-- `s.replace(sub, repl)` (Python); an empty needle inserts `repl` at
every character boundary. -/
def pyReplaceAll (s sub repl : String) : String :=
  if sub.data.isEmpty then
    ⟨repl.data ++ s.data.flatMap (fun c => c :: repl.data)⟩
  else ⟨replaceScan sub.data repl.data 0 s.data⟩

/-- `s.replace(sub, repl, 1)` (Python). -/
def pyReplaceOne (s sub repl : String) : String :=
  if sub.data.isEmpty then ⟨repl.data ++ s.data⟩
  else ⟨replaceOneScan sub.data repl.data s.data⟩

/-- `EditFileTool.execute`: replace exact text in a file.  Returns the
result text together with the filesystem after the call (`p.write_text`
happens only on the success path). -/
def EditFileTool.execute (fs : String → FsEntry)
    (path old_string new_string : String) (replace_all : Bool) :
    String × (String → FsEntry) :=
  match fs path with
  | .absent => ("[error: file not found: " ++ path ++ "]", fs)
  | .notFile => ("[error: not a file: " ++ path ++ "]", fs)
  | .file content =>
      let count := pyCount content old_string
      if count = 0 then
        ("[error: old_string not found in " ++ path ++ "]", fs)
      else if 1 < count ∧ replace_all = false then
        ("[error: old_string appears " ++ toString count ++ " times in " ++ path ++
           ". Use replace_all=true or provide more context to make it unique.]", fs)
      else
        let new_content :=
          if replace_all then pyReplaceAll content old_string new_string
          else pyReplaceOne content old_string new_string
        let replacements := if replace_all then count else 1
        ("[replaced " ++ toString replacements ++ " occurrence(s) in " ++ path ++ "]",
         fun q => if q = path then .file new_content else fs q)

/-! ## Permission engine (`henri/permissions.py`)

Python `set`/`dict` session state is embedded as lists with membership
helpers; `Path(p).resolve()` (canonicalisation) and
`_is_path_within_cwd` are external filesystem behaviour, passed in as
`resolve : String → String` and `withinCwd : String → Bool`. -/

/-- Membership in a Python set of strings. -/
def memS : List String → String → Bool
  | [], _ => false
  | x :: xs, y => if x = y then true else memS xs y

/-- `set.add`: insert if absent. -/
def addS (xs : List String) (y : String) : List String :=
  if memS xs y then xs else y :: xs

/-- `allowed_paths.get(tool, set())`. -/
def lookupPaths : List (String × List String) → String → List String
  | [], _ => []
  | (k, vs) :: rest, n => if k = n then vs else lookupPaths rest n

/-- `allowed_paths.setdefault(tool, set()).add(path)`. -/
def addPath : List (String × List String) → String → String → List (String × List String)
  | [], k, v => [(k, [v])]
  | (k0, vs) :: rest, k, v =>
      if k0 = k then (k0, addS vs v) :: rest else (k0, vs) :: addPath rest k v

/-- `DEFAULT_PATH_BASED`. -/
def DEFAULT_PATH_BASED : List String := ["grep", "glob", "read_file", "write_file", "edit_file"]

/-- `DEFAULT_AUTO_ALLOW_CWD`. -/
def DEFAULT_AUTO_ALLOW_CWD : List String := ["grep", "glob", "read_file"]

/-- `DEFAULT_AUTO_ALLOW`. -/
def DEFAULT_AUTO_ALLOW : List String := []

/-- The `PermissionManager` dataclass: static configuration plus mutable
session state (the `console` field is display-only and omitted). -/
structure PermissionManager where
  path_based : List String := DEFAULT_PATH_BASED
  auto_allow_cwd : List String := DEFAULT_AUTO_ALLOW_CWD
  auto_allow : List String := DEFAULT_AUTO_ALLOW
  allowed_tools : List String := []
  allowed_bash_commands : List String := []
  allowed_paths : List (String × List String) := []
  allow_all : Bool := false
  reject_prompts : Bool := false
  deriving Repr, DecidableEq

/-- The manager built with all defaults. -/
def defaultPermissionManager : PermissionManager := {}

/-- Observable outcome of `PermissionManager.check`: returned `True`
without prompting, returned `False` without prompting (auto-denied), or
fell through to `_prompt_user`. -/
inductive CheckOutcome where
  | allow
  | deny
  | prompt
  deriving Repr, DecidableEq

/-- `PermissionManager.check`, up to the point where it either returns or
calls `_prompt_user`.  Mirrors the source's rule order: permission-free
tool, `allow_all`, configured `auto_allow`, then the `bash` /
path-based / plain-tool branch chain, then `reject_prompts`. -/
def PermissionManager.check (st : PermissionManager) (resolve : String → String)
    (withinCwd : String → Bool) (t : Tool) (c : ToolCall) : CheckOutcome :=
  if t.requires_permission = false then .allow
  else if st.allow_all then .allow
  else if memS st.auto_allow t.name then .allow
  else
    let fallThrough := if st.reject_prompts then CheckOutcome.deny else CheckOutcome.prompt
    if t.name = "bash" then
      if memS st.allowed_bash_commands (argGet c.args "command" "") then .allow
      else fallThrough
    else if memS st.path_based t.name then
      let resolved := resolve (argGet c.args "path" ".")
      if memS (lookupPaths st.allowed_paths t.name) resolved then .allow
      else if memS st.auto_allow_cwd t.name && withinCwd (argGet c.args "path" ".") then .allow
      else fallThrough
    else if memS st.allowed_tools t.name then .allow
    else fallThrough

/-- ASCII lowering of one character (`str.lower` on the inputs at hand). -/
def pyLowerChar (c : Char) : Char :=
  if 'A' ≤ c ∧ c ≤ 'Z' then Char.ofNat (c.toNat + 32) else c

/-- Whitespace recognised by `str.strip` (ASCII cases). -/
def pyIsSpace (c : Char) : Bool :=
  c = ' ' || c = '\t' || c = '\n' || c = '\r'

/-- `raw.strip().lower()` — the preprocessing `_prompt_user` applies to
the operator's answer before comparing it against the four options. -/
def pyStripLower (raw : String) : String :=
  ⟨(((raw.data.dropWhile pyIsSpace).reverse.dropWhile pyIsSpace).reverse).map pyLowerChar⟩

/-- One round of the `_prompt_user` answer loop: the function returned
with the given grant, or the answer was invalid and the loop repeats. -/
inductive PromptOutcome where
  | granted (g : Bool)
  | invalid
  deriving Repr, DecidableEq

/-- One iteration of the answer loop in `PermissionManager._prompt_user`,
given the operator's raw input line.  Note the source lowercases the
response before every comparison, including the comparison against
`"A"` in the allow-all branch. -/
def PermissionManager.promptAnswer (st : PermissionManager) (resolve : String → String)
    (t : Tool) (c : ToolCall) (raw : String) : PromptOutcome × PermissionManager :=
  let response := pyStripLower raw
  if response = "y" ∨ response = "yes" then (.granted true, st)
  else if response = "n" ∨ response = "no" then (.granted false, st)
  else if response = "a" ∨ response = "always" then
    if t.name = "bash" then
      (.granted true,
       { st with allowed_bash_commands := addS st.allowed_bash_commands (argGet c.args "command" "") })
    else if memS st.path_based t.name then
      (.granted true,
       { st with allowed_paths := addPath st.allowed_paths t.name (resolve (argGet c.args "path" ".")) })
    else
      (.granted true, { st with allowed_tools := addS st.allowed_tools t.name })
  else if response = "A" then
    (.granted true, { st with allow_all := true })
  else (.invalid, st)

/-! ## Agent orchestration (`henri/agent.py`, `Agent.chat`)

The dispatch section of `Agent.chat` iterates the turn's tool calls in
order: unknown name → synthesized error result; permission denied →
synthesized error result; otherwise execute and wrap the returned text.
The permission gate (which may prompt and so mutates session state) is
the parameter `permit`, threaded through a state of arbitrary type `S`;
a trace records which calls were permission-checked and executed. -/

/-- `{t.name: t for t in tools}.get(name)` — on duplicate names the later
tool wins, as in the Python dict comprehension. -/
def toolLookup (tools : List Tool) (n : String) : Option Tool :=
  tools.foldl (fun acc t => if t.name = n then some t else acc) none

/-- Observable side effects of dispatching one call. -/
inductive TraceEvent where
  | permChecked (toolName callId : String)
  | executed (toolName callId : String)
  deriving Repr, DecidableEq

/-- ASCII single quote, as it appears in the source's error strings. -/
def squote : String := String.singleton (Char.ofNat 39)

section Dispatch

variable {S : Type}

/-- The body of the `for call in tool_calls` loop in `Agent.chat`,
for one call. -/
def execOne (tools : List Tool) (permit : S → Tool → ToolCall → Bool × S)
    (s : S) (call : ToolCall) : ToolResult × S × List TraceEvent :=
  match toolLookup tools call.name with
  | none =>
      ({ tool_call_id := call.id,
         content := "[error: unknown tool " ++ squote ++ call.name ++ squote ++ "]",
         is_error := true }, s, [])
  | some tool =>
      let ps := permit s tool call
      if ps.1 then
        ({ tool_call_id := call.id, content := tool.run call.args, is_error := false },
         ps.2, [.permChecked tool.name call.id, .executed tool.name call.id])
      else
        ({ tool_call_id := call.id, content := "[permission denied by user]",
           is_error := true }, ps.2, [.permChecked tool.name call.id])

/-- The whole `for call in tool_calls` loop: sequential, in order
received, one result per call. -/
def processCalls (tools : List Tool) (permit : S → Tool → ToolCall → Bool × S) :
    S → List ToolCall → List ToolResult × S × List TraceEvent
  | s, [] => ([], s, [])
  | s, c :: rest =>
      let r := execOne tools permit s c
      let rs := processCalls tools permit r.2.1 rest
      (r.1 :: rs.1, rs.2.1, r.2.2 ++ rs.2.2)

/-- One iteration of the `while True` loop of `Agent.chat`: stream the
provider (abstracted to the accumulated text and terminal tool calls of
turn `turnIdx`), append the assistant message, and — when there are tool
calls — dispatch them and append the one synthesized result message. -/
def chatTurn (provider : Nat → String × List ToolCall) (tools : List Tool)
    (permit : S → Tool → ToolCall → Bool × S) (turnIdx : Nat)
    (msgs : List Message) (s : S) : List Message × S × List ToolCall :=
  let resp := provider turnIdx
  let msgs1 := msgs ++ [Message.assistantMsg resp.1 resp.2]
  if resp.2.isEmpty then (msgs1, s, [])
  else
    let out := processCalls tools permit s resp.2
    (msgs1 ++ [Message.toolResultMsg out.1], out.2.1, resp.2)

/-- How a run of the chat loop ended. -/
inductive StopCond where
  | done
  | turn_limit_reached
  deriving Repr, DecidableEq

/-- Modelled from the spec: the configured maximum turn count of the
orchestrator loop.  `cli.py` exposes `--max-turns` and passes `max_turns`
(and `stats_file`) to `run_agent`, but the orchestrator snapshot under
`src/henri/agent.py` does not take the parameter — the limit check itself
is code of the repository missing from `src/`.  Following spec §4.2,
each iteration streams the provider once (`chatTurn`); with no tool calls
the loop stops in `done`; when the configured maximum number of provider
calls has been spent the loop stops in `turn_limit_reached` instead of
streaming again.  Returns the message log, the number of provider calls
made, and the terminal condition. -/
def chatLoop (provider : Nat → String × List ToolCall) (tools : List Tool)
    (permit : S → Tool → ToolCall → Bool × S) :
    Nat → Nat → List Message → S → List Message × Nat × StopCond
  | 0, _, msgs, _ => (msgs, 0, .turn_limit_reached)
  | remaining + 1, turnIdx, msgs, s =>
      let step := chatTurn provider tools permit turnIdx msgs s
      if step.2.2.isEmpty then (step.1, 1, .done)
      else
        let rest := chatLoop provider tools permit remaining (turnIdx + 1) step.1 step.2.1
        (rest.1, rest.2.1 + 1, rest.2.2)

end Dispatch

/-! ## Provider streams (`henri/providers/`)

Each backend's `stream` is a loop over vendor wire events producing
canonical `StreamEvent`s.  The external JSON parser (`json.loads`) is the
parameter `parse`; `parse s = none` means `json.loads(s)` raises
`JSONDecodeError`.  A runner returning `completed = false` models the
loop raising an uncaught exception (the stream aborts; events already
yielded before the raise are not relevant to the claims below). -/

/-- `henri.providers.base.Usage`. -/
structure Usage where
  input_tokens : Nat := 0
  output_tokens : Nat := 0
  deriving Repr, DecidableEq

/-- `henri.providers.base.StreamEvent`.  (`bedrock.py` declares its own
copy of this dataclass without `tool_use_started` or `usage`; its stream
is embedded into this common type and simply never sets those fields.) -/
structure StreamEvent where
  text : String := ""
  tool_calls : Option (List ToolCall) := none
  stop_reason : Option String := none
  tool_use_started : Bool := false
  usage : Option Usage := none
  deriving Repr, DecidableEq

/-- Argument resolution at `contentBlockStop` in `bedrock.py` (and at
`content_block_stop` in `vertex.py`):
`json.loads(current_tool_input) if current_tool_input else {}` — no
exception handler, so a parse failure on nonempty text propagates. -/
def anthropicParseArgs (parse : String → Option MArgs) (s : String) : Option MArgs :=
  if s = "" then some [] else parse s

/-- Argument resolution at stream end in `openai_compatible.py`:
`json.loads` under `try/except JSONDecodeError`, defaulting to `{}`. -/
def openaiParseArgs (parse : String → Option MArgs) (s : String) : MArgs :=
  if s = "" then [] else (parse s).getD []

/-- In-progress tool-use accumulation (`current_tool_id`,
`current_tool_name`, `current_tool_input`, `tool_calls`), shared by the
Bedrock and Vertex loops. -/
structure ToolAccum where
  curId : Option String := none
  curName : Option String := none
  curInput : String := ""
  toolCalls : List ToolCall := []
  deriving Repr, DecidableEq

/-- Wire events of the Bedrock Converse stream, as destructured by
`BedrockProvider.stream`. -/
inductive BWireEvent where
  | blockStartToolUse (toolUseId name : String)
  | blockStartOther
  | deltaText (s : String)
  | deltaToolInput (s : String)
  | blockStop
  | messageStop (stopReason : String)
  deriving Repr, DecidableEq

/-- One iteration of the `for event in response["stream"]` loop of
`BedrockProvider.stream`; `none` models `json.loads` raising. -/
def bedrockStep (parse : String → Option MArgs) (st : ToolAccum) :
    BWireEvent → Option (ToolAccum × List StreamEvent)
  | .blockStartToolUse i n =>
      some ({ st with curId := some i, curName := some n, curInput := "" }, [])
  | .blockStartOther => some (st, [])
  | .deltaText s => some (st, [{ text := s }])
  | .deltaToolInput s => some ({ st with curInput := st.curInput ++ s }, [])
  | .blockStop =>
      match st.curId, st.curName with
      | some i, some n =>
          match anthropicParseArgs parse st.curInput with
          | none => none
          | some args =>
              some ({ st with
                        toolCalls := st.toolCalls ++ [⟨i, n, args⟩],
                        curId := none, curName := none }, [])
      | _, _ => some (st, [])
  | .messageStop reason =>
      some (st, [{ tool_calls := if st.toolCalls.isEmpty then none else some st.toolCalls,
                   stop_reason := some reason }])

/-- The Bedrock event loop from a given accumulator state; the second
component is the state on normal completion (`none` = the loop raised). -/
def bedrockRunFrom (parse : String → Option MArgs) (st : ToolAccum) :
    List BWireEvent → List StreamEvent × Option ToolAccum
  | [] => ([], some st)
  | ev :: rest =>
      match bedrockStep parse st ev with
      | none => ([], none)
      | some out =>
          let r := bedrockRunFrom parse out.1 rest
          (out.2 ++ r.1, r.2)

/-- `BedrockProvider.stream` over a whole wire stream: the canonical
events delivered, and whether the stream completed without raising. -/
def bedrockRun (parse : String → Option MArgs) (events : List BWireEvent) :
    List StreamEvent × Bool :=
  let r := bedrockRunFrom parse {} events
  (r.1, r.2.isSome)

/-- Wire events of the Anthropic SDK stream, as destructured by
`VertexProvider.stream`. -/
inductive VWireEvent where
  | blockStartToolUse (id name : String)
  | blockStartText
  | deltaText (s : String)
  | deltaInputJson (s : String)
  | blockStop
  | messageStopEv
  deriving Repr, DecidableEq

/-- One iteration of the event loop of `VertexProvider.stream`.  A
`tool_use` `content_block_start` yields `tool_use_started` (once per
block, with no once-per-turn guard); argument fragments yield nothing. -/
def vertexStep (parse : String → Option MArgs) (st : ToolAccum) :
    VWireEvent → Option (ToolAccum × List StreamEvent)
  | .blockStartToolUse i n =>
      some ({ st with curId := some i, curName := some n, curInput := "" },
            [{ tool_use_started := true }])
  | .blockStartText => some (st, [])
  | .deltaText s => some (st, [{ text := s }])
  | .deltaInputJson s => some ({ st with curInput := st.curInput ++ s }, [])
  | .blockStop =>
      match st.curId, st.curName with
      | some i, some n =>
          match anthropicParseArgs parse st.curInput with
          | none => none
          | some args =>
              some ({ st with
                        toolCalls := st.toolCalls ++ [⟨i, n, args⟩],
                        curId := none, curName := none }, [])
      | _, _ => some (st, [])
  | .messageStopEv => some (st, [])

/-- The Vertex event loop from a given state. -/
def vertexRunFrom (parse : String → Option MArgs) (st : ToolAccum) :
    List VWireEvent → List StreamEvent × Option ToolAccum
  | [] => ([], some st)
  | ev :: rest =>
      match vertexStep parse st ev with
      | none => ([], none)
      | some out =>
          let r := vertexRunFrom parse out.1 rest
          (out.2 ++ r.1, r.2)

/-- `VertexProvider.stream`: run the loop, then (on normal completion)
yield the final event carrying the accumulated calls and the stop reason
taken from `get_final_message()` (external, hence a parameter). -/
def vertexRun (parse : String → Option MArgs) (events : List VWireEvent)
    (finalStop : String) : List StreamEvent × Bool :=
  let r := vertexRunFrom parse {} events
  match r.2 with
  | none => (r.1, false)
  | some st =>
      (r.1 ++ [{ tool_calls := if st.toolCalls.isEmpty then none else some st.toolCalls,
                 stop_reason := some finalStop }], true)

/-! ### OpenAI-compatible provider -/

/-- One tool-call builder (`{"id": …, "name": …, "arguments": …}`). -/
structure OBuilder where
  id : String := ""
  fname : String := ""
  fargs : String := ""
  deriving Repr, DecidableEq, Inhabited

/-- One `tc_delta` entry of a chunk (`function` fields flattened;
`none` covers both an absent `function` and an absent field). -/
structure OTCDelta where
  index : Nat
  id : Option String := none
  fname : Option String := none
  fargs : Option String := none
  deriving Repr, DecidableEq

/-- `chunk.choices[0].delta` together with the choice's finish reason. -/
structure OChoiceDelta where
  content : Option String := none
  tool_calls : List OTCDelta := []
  finish_reason : Option String := none
  deriving Repr, DecidableEq

/-- One stream chunk (`choice = none` models empty `chunk.choices`). -/
structure OChunk where
  usage : Option Usage := none
  choice : Option OChoiceDelta := none
  deriving Repr, DecidableEq

/-- `tool_call_builders` lookup (`idx in tool_call_builders`). -/
def bLookup : List (Nat × OBuilder) → Nat → Option OBuilder
  | [], _ => none
  | (k, b) :: rest, i => if k = i then some b else bLookup rest i

/-- Update the builder stored at an index. -/
def bUpdate (bs : List (Nat × OBuilder)) (i : Nat) (f : OBuilder → OBuilder) :
    List (Nat × OBuilder) :=
  bs.map (fun p => if p.1 = i then (p.1, f p.2) else p)

/-- The unconditional field updates applied to a builder for one
`tc_delta` (each guarded by Python truthiness, so empty strings are
ignored). -/
def applyTCDelta (b : OBuilder) (tc : OTCDelta) : OBuilder :=
  let b1 := match tc.id with
    | some i => if i = "" then b else { b with id := i }
    | none => b
  let b2 := match tc.fname with
    | some n => if n = "" then b1 else { b1 with fname := n }
    | none => b1
  match tc.fargs with
  | some a => if a = "" then b2 else { b2 with fargs := b2.fargs ++ a }
  | none => b2

/-- Processing of one `tc_delta`: on the first chunk for an index, emit
`tool_use_started` only when no builder exists yet, then create the
builder; in all cases apply the field updates. -/
def otcStep (bs : List (Nat × OBuilder)) (tc : OTCDelta) :
    List (Nat × OBuilder) × List StreamEvent :=
  match bLookup bs tc.index with
  | some _ => (bUpdate bs tc.index (applyTCDelta · tc), [])
  | none =>
      let evs : List StreamEvent := if bs.isEmpty then [{ tool_use_started := true }] else []
      let b0 : OBuilder := { id := tc.id.getD "" }
      (bUpdate (bs ++ [(tc.index, b0)]) tc.index (applyTCDelta · tc), evs)

/-- The `for tc_delta in delta.tool_calls` loop. -/
def otcFold (bs : List (Nat × OBuilder)) :
    List OTCDelta → List (Nat × OBuilder) × List StreamEvent
  | [] => (bs, [])
  | tc :: rest =>
      let r := otcStep bs tc
      let r2 := otcFold r.1 rest
      (r2.1, r.2 ++ r2.2)

/-- Loop state of `OpenAICompatibleProvider.stream`. -/
structure OState where
  builders : List (Nat × OBuilder) := []
  usage : Option Usage := none
  finalFinish : Option String := none
  deriving Repr, DecidableEq

/-- The text event yielded for `delta.content` (none for an absent or
empty — falsy — content). -/
def textEventsOf (o : Option String) : List StreamEvent :=
  match o with
  | some s => if s.isEmpty then [] else [{ text := s }]
  | none => []

/-- The usage update applied at the top of a chunk iteration. -/
def usageUpd (st : OState) (u : Option Usage) : OState :=
  match u with
  | some v => { st with usage := some v }
  | none => st

/-- One iteration of the `async for chunk in response` loop. -/
def ochunkStep (st : OState) (ch : OChunk) : OState × List StreamEvent :=
  let st1 := usageUpd st ch.usage
  match ch.choice with
  | none => (st1, [])
  | some d =>
      let tcr := otcFold st1.builders d.tool_calls
      let st2 := { st1 with
                     builders := tcr.1,
                     finalFinish := match d.finish_reason with
                       | some f => if f.isEmpty then st1.finalFinish else some f
                       | none => st1.finalFinish }
      (st2, textEventsOf d.content ++ tcr.2)

/-- The chunk loop from a given state. -/
def openaiLoop (st : OState) : List OChunk → OState × List StreamEvent
  | [] => (st, [])
  | ch :: rest =>
      let r := ochunkStep st ch
      let r2 := openaiLoop r.1 rest
      (r2.1, r.2 ++ r2.2)

/-- Sorted insertion of a key. -/
def insertSorted (n : Nat) : List Nat → List Nat
  | [] => [n]
  | m :: rest => if n ≤ m then n :: m :: rest else m :: insertSorted n rest

/-- `sorted(keys)`. -/
def sortNat : List Nat → List Nat
  | [] => []
  | n :: rest => insertSorted n (sortNat rest)

/-- The post-loop finalization of `OpenAICompatibleProvider.stream`:
nothing if no finish reason was seen, else one terminal event with the
fully-parsed calls in index order (parse failures degrade to `{}`). -/
def openaiFinal (parse : String → Option MArgs) (st : OState) : List StreamEvent :=
  match st.finalFinish with
  | none => []
  | some fr =>
      let keys := sortNat (st.builders.map (fun p => p.1))
      let tcs := keys.map (fun k =>
        let b := (bLookup st.builders k).getD {}
        ({ id := b.id, name := b.fname, args := openaiParseArgs parse b.fargs } : ToolCall))
      [{ tool_calls := if tcs.isEmpty then none else some tcs,
         stop_reason := some (if fr = "tool_calls" then "tool_use" else "end_turn"),
         usage := st.usage }]

/-- `OpenAICompatibleProvider.stream` over a whole chunk stream (total:
this provider catches its parse failures). -/
def openaiRun (parse : String → Option MArgs) (chunks : List OChunk) : List StreamEvent :=
  let r := openaiLoop {} chunks
  r.2 ++ openaiFinal parse r.1

/-- Concrete stand-in for the external JSON parser `json.loads` on the
argument texts appearing in the concrete witnesses below: it accepts the
empty object and rejects anything else (in particular malformed text such
as `"{bad"`, on which `json.loads` raises `JSONDecodeError`). -/
def toyParse : String → Option MArgs :=
  fun s => if s = "{}" then some [] else none

/-! ## Helper lemmas -/

/-- A permission oracle that grants everything, used to instantiate the
generic `permit` parameter in concrete witnesses. -/
def permitU : Unit → Tool → ToolCall → Bool × Unit := fun s _ _ => (true, s)

theorem memS_addS_self (xs : List String) (y : String) : memS (addS xs y) y = true := by
  unfold addS
  by_cases h : memS xs y = true
  · simp [h]
  · simp only [Bool.not_eq_true] at h
    simp [h, memS]

theorem memS_addS_other (xs : List String) (y x : String) (hx : x ≠ y) :
    memS (addS xs y) x = memS xs x := by
  have hyx : ¬ (y = x) := fun h2 => hx h2.symm
  unfold addS
  by_cases h : memS xs y = true
  · simp [h]
  · simp only [Bool.not_eq_true] at h
    simp [h, memS, hyx]

theorem memS_lookupPaths_addPath_self (m : List (String × List String)) (k v : String) :
    memS (lookupPaths (addPath m k v) k) v = true := by
  induction m with
  | nil => simp [addPath, lookupPaths, memS]
  | cons p rest ih =>
      obtain ⟨k0, vs⟩ := p
      by_cases h : k0 = k
      · subst h
        simp [addPath, lookupPaths, memS_addS_self]
      · simp [addPath, h, lookupPaths, ih]

theorem memS_lookupPaths_addPath_other (m : List (String × List String))
    (k v k2 x : String) (hx : x ≠ v) :
    memS (lookupPaths (addPath m k v) k2) x = memS (lookupPaths m k2) x := by
  have hvx : ¬ (v = x) := fun h2 => hx h2.symm
  induction m with
  | nil =>
      by_cases h : k = k2
      · subst h
        simp [addPath, lookupPaths, memS, hvx]
      · simp [addPath, lookupPaths, h, memS]
  | cons p rest ih =>
      obtain ⟨k0, vs⟩ := p
      by_cases h : k0 = k
      · subst h
        by_cases h2 : k0 = k2
        · subst h2
          simp [addPath, lookupPaths, memS_addS_other _ _ _ hx]
        · simp [addPath, lookupPaths, h2]
      · by_cases h2 : k0 = k2
        · subst h2
          simp [addPath, lookupPaths, h, memS]
        · simp [addPath, lookupPaths, h, h2, ih]

/-! ## C2 — the allow-all answer -/

/-- **C2** (code bug).  The spec says the single uppercase letter `A`
(distinct from lowercase `a` for allow-always) sets the session-wide
`allow_all` override.  The source's own prompt text (`allow (A)ll`) and
the comment `# Capital A for allow all` say the same — but `_prompt_user`
lowercases the response (`.strip().lower()`) before every comparison, so
the `response == "A"` branch is unreachable.  Answering `A` is treated as
allow-always: here, for a `bash` call, it records the exact command as a
scoped session grant and leaves `allow_all` false. -/
theorem prompt_capital_A_grants_always_not_allow_all :
    PermissionManager.promptAnswer defaultPermissionManager id
        ⟨"bash", true, fun _ => ""⟩ ⟨"t1", "bash", [("command", "ls")]⟩ "A" =
      (.granted true,
       { defaultPermissionManager with allowed_bash_commands := ["ls"] }) ∧
    (PermissionManager.promptAnswer defaultPermissionManager id
        ⟨"bash", true, fun _ => ""⟩ ⟨"t1", "bash", [("command", "ls")]⟩ "A").2.allow_all
      = false := by
  constructor <;> rfl

/-! ## C8 — edit_file with a non-unique target -/

/-- **C8**.  An `edit_file` call whose `old_string` occurs more than once
in the target file, with `replace_all` false (its default when absent),
returns the count-reporting error message and leaves the filesystem —
in particular the target file — unchanged. -/
theorem edit_file_multiple_occurrences_rejected
    (fs : String → FsEntry) (path old_string new_string content : String)
    (hfile : fs path = .file content) (hcount : 1 < pyCount content old_string) :
    EditFileTool.execute fs path old_string new_string false =
      ("[error: old_string appears " ++ toString (pyCount content old_string) ++
         " times in " ++ path ++
         ". Use replace_all=true or provide more context to make it unique.]", fs) := by
  unfold EditFileTool.execute
  rw [hfile]
  have h0 : ¬ (pyCount content old_string = 0) := by omega
  simp [h0, hcount]

/-- Witness for C8 at a concrete filesystem: `"ab"` occurs twice in
`"abab"`, the call fails with the message reporting 2 occurrences, and
the filesystem value is returned unchanged. -/
theorem edit_file_multiple_occurrences_rejected_witness :
    EditFileTool.execute (fun q => if q = "f.txt" then .file "abab" else .absent)
        "f.txt" "ab" "x" false =
      ("[error: old_string appears 2 times in f.txt. Use replace_all=true or provide more context to make it unique.]",
       fun q => if q = "f.txt" then FsEntry.file "abab" else FsEntry.absent) := by
  rw [edit_file_multiple_occurrences_rejected
        (fun q => if q = "f.txt" then .file "abab" else .absent)
        "f.txt" "ab" "x" "abab" (by rfl) (by decide)]
  rfl

/-! ## C9 — unknown tool name -/

/-- **C9**.  A call whose name is not in the registry yields a
synthesized `ToolResult` with `is_error = true` and the unknown-tool
message; no permission check and no execution happens for it (empty
trace, permission state untouched), and the rest of the batch is
processed exactly as it would be from the same state. -/
theorem unknown_tool_error_no_side_effect {S : Type} (tools : List Tool)
    (permit : S → Tool → ToolCall → Bool × S) (s : S) (c : ToolCall)
    (rest : List ToolCall) (h : toolLookup tools c.name = none) :
    execOne tools permit s c =
      ({ tool_call_id := c.id,
         content := "[error: unknown tool " ++ squote ++ c.name ++ squote ++ "]",
         is_error := true }, s, [])
    ∧ processCalls tools permit s (c :: rest) =
        (({ tool_call_id := c.id,
            content := "[error: unknown tool " ++ squote ++ c.name ++ squote ++ "]",
            is_error := true } : ToolResult) :: (processCalls tools permit s rest).1,
         (processCalls tools permit s rest).2.1,
         (processCalls tools permit s rest).2.2) := by
  have h1 : execOne tools permit s c =
      ({ tool_call_id := c.id,
         content := "[error: unknown tool " ++ squote ++ c.name ++ squote ++ "]",
         is_error := true }, s, []) := by
    unfold execOne
    rw [h]
  refine ⟨h1, ?_⟩
  show (let r := execOne tools permit s c
        let rs := processCalls tools permit r.2.1 rest
        (r.1 :: rs.1, rs.2.1, r.2.2 ++ rs.2.2)) = _
  rw [h1]
  rfl

/-- Witness for C9: a two-call batch whose first call names an
unregistered tool; the first result is the error, the second call (for a
registered tool) still executes. -/
theorem unknown_tool_error_no_side_effect_witness :
    processCalls [readFileTool (fun _ => .absent)] permitU ()
        [⟨"c1", "mystery", []⟩, ⟨"c2", "read_file", [("path", "/nope")]⟩] =
      ([{ tool_call_id := "c1",
          content := "[error: unknown tool " ++ squote ++ "mystery" ++ squote ++ "]",
          is_error := true },
        { tool_call_id := "c2", content := "[error: file not found: /nope]",
          is_error := false }], (),
       [.permChecked "read_file" "c2", .executed "read_file" "c2"]) := by
  have h := unknown_tool_error_no_side_effect [readFileTool (fun _ => .absent)]
    permitU () ⟨"c1", "mystery", []⟩ [⟨"c2", "read_file", [("path", "/nope")]⟩] (by rfl)
  rw [h.2]
  rfl

/-! ## C10 — tools that do not require permission -/

/-- **C10**.  `PermissionManager.check` returns allow immediately for any
tool with `requires_permission = False`, whatever the session state, path
arguments, or `reject_prompts`; the default `read_file` and `grep` tools
carry that flag, so — although both are listed in
`DEFAULT_AUTO_ALLOW_CWD` — that configuration never constrains them and
reads or searches anywhere (also outside the working directory) are
allowed without a prompt. -/
theorem no_permission_tools_always_allowed :
    (∀ (st : PermissionManager) (resolve : String → String) (withinCwd : String → Bool)
       (t : Tool) (c : ToolCall), t.requires_permission = false →
         PermissionManager.check st resolve withinCwd t c = .allow)
    ∧ (∀ fs, (readFileTool fs).requires_permission = false)
    ∧ (∀ rg, (grepTool rg).requires_permission = false)
    ∧ memS DEFAULT_AUTO_ALLOW_CWD "read_file" = true
    ∧ memS DEFAULT_AUTO_ALLOW_CWD "grep" = true
    ∧ (∀ (st : PermissionManager) (fs : String → FsEntry) (c : ToolCall)
         (resolve : String → String) (withinCwd : String → Bool),
         PermissionManager.check st resolve withinCwd (readFileTool fs) c = .allow)
    ∧ (∀ (st : PermissionManager) (rg : MArgs → String) (c : ToolCall)
         (resolve : String → String) (withinCwd : String → Bool),
         PermissionManager.check st resolve withinCwd (grepTool rg) c = .allow) := by
  have key : ∀ (st : PermissionManager) (resolve : String → String)
      (withinCwd : String → Bool) (t : Tool) (c : ToolCall),
      t.requires_permission = false →
        PermissionManager.check st resolve withinCwd t c = .allow := by
    intro st resolve withinCwd t c h
    simp [PermissionManager.check, h]
  refine ⟨key, fun _ => rfl, fun _ => rfl, rfl, rfl, ?_, ?_⟩
  · intro st fs c resolve withinCwd
    exact key st resolve withinCwd (readFileTool fs) c rfl
  · intro st rg c resolve withinCwd
    exact key st resolve withinCwd (grepTool rg) c rfl

/-- Witness for C10: with the default configuration, in auto-deny mode,
`read_file` on a path outside the working directory (the cwd test
returns false for every path) is still allowed without any prompt. -/
theorem no_permission_tools_always_allowed_witness :
    PermissionManager.check { defaultPermissionManager with reject_prompts := true }
        id (fun _ => false) (readFileTool (fun _ => .absent))
        ⟨"c1", "read_file", [("path", "/etc/passwd")]⟩ = .allow :=
  no_permission_tools_always_allowed.2.2.2.2.2.1
    { defaultPermissionManager with reject_prompts := true }
    (fun _ => .absent) ⟨"c1", "read_file", [("path", "/etc/passwd")]⟩ id (fun _ => false)

/-! ## Agent-loop lemmas -/

theorem execOne_tool_call_id {S : Type} (tools : List Tool)
    (permit : S → Tool → ToolCall → Bool × S) (s : S) (c : ToolCall) :
    (execOne tools permit s c).1.tool_call_id = c.id := by
  unfold execOne
  cases toolLookup tools c.name with
  | none => rfl
  | some t =>
      by_cases h : (permit s t c).1 = true
      · simp [h]
      · simp only [Bool.not_eq_true] at h
        simp [h]

theorem processCalls_ids {S : Type} (tools : List Tool)
    (permit : S → Tool → ToolCall → Bool × S) :
    ∀ (calls : List ToolCall) (s : S),
      (processCalls tools permit s calls).1.map (fun r => r.tool_call_id) =
        calls.map (fun c => c.id) := by
  intro calls
  induction calls with
  | nil => intro s; rfl
  | cons c rest ih =>
      intro s
      show ((execOne tools permit s c).1 ::
              (processCalls tools permit (execOne tools permit s c).2.1 rest).1).map
            (fun r => r.tool_call_id) = _
      simp [execOne_tool_call_id, ih]

theorem chatTurn_calls {S : Type} (provider : Nat → String × List ToolCall)
    (tools : List Tool) (permit : S → Tool → ToolCall → Bool × S)
    (turnIdx : Nat) (msgs : List Message) (s : S) :
    (chatTurn provider tools permit turnIdx msgs s).2.2 = (provider turnIdx).2 := by
  unfold chatTurn
  by_cases h : (provider turnIdx).2.isEmpty = true
  · rw [List.isEmpty_iff] at h
    simp [h]
  · simp only [Bool.not_eq_true] at h
    simp [h]

theorem chatLoop_pos {S : Type} (provider : Nat → String × List ToolCall)
    (tools : List Tool) (permit : S → Tool → ToolCall → Bool × S)
    (m turnIdx : Nat) (msgs : List Message) (s : S) :
    1 ≤ (chatLoop provider tools permit (m + 1) turnIdx msgs s).2.1 := by
  show 1 ≤ (if (chatTurn provider tools permit turnIdx msgs s).2.2.isEmpty
              then _ else _ : List Message × Nat × StopCond).2.1
  by_cases h : (chatTurn provider tools permit turnIdx msgs s).2.2.isEmpty = true
  · simp [h]
  · simp only [Bool.not_eq_true] at h
    simp [h]

/-! ## C1 — one result per call, in order, bundled in one message -/

/-- **C1**.  For a turn whose provider response carries the (nonempty)
batch `calls`, the dispatch loop produces exactly one `ToolResult` per
call, in the order received, each carrying `tool_call_id` equal to its
call's id (so in particular exactly `N` results for `N` calls), and the
turn appends exactly two messages: the assistant message and one
synthesized message bundling those results in call order. -/
theorem chat_batch_one_result_per_call {S : Type} (tools : List Tool)
    (permit : S → Tool → ToolCall → Bool × S) (s : S) (calls : List ToolCall)
    (provider : Nat → String × List ToolCall) (turnIdx : Nat) (msgs : List Message)
    (hp : (provider turnIdx).2 = calls) (hne : calls ≠ []) :
    (processCalls tools permit s calls).1.map (fun r => r.tool_call_id) =
        calls.map (fun c => c.id)
    ∧ (processCalls tools permit s calls).1.length = calls.length
    ∧ (chatTurn provider tools permit turnIdx msgs s).1 =
        msgs ++ [Message.assistantMsg (provider turnIdx).1 calls,
                 Message.toolResultMsg (processCalls tools permit s calls).1] := by
  have hmap := processCalls_ids tools permit calls s
  refine ⟨hmap, ?_, ?_⟩
  · have := congrArg List.length hmap
    simpa using this
  · have h : calls.isEmpty = false := by
      cases calls with
      | nil => exact absurd rfl hne
      | cons c cs => rfl
    simp only [chatTurn, hp, h, Bool.false_eq_true, if_false]
    simp

/-- Witness for C1: a concrete two-call batch (one unknown tool, one
granted read) yields two results with matching ids in order, bundled into
one synthesized message after the assistant message. -/
theorem chat_batch_one_result_per_call_witness :
    (processCalls [readFileTool (fun _ => .absent)] permitU ()
        [⟨"c1", "mystery", []⟩, ⟨"c2", "read_file", [("path", "/nope")]⟩]).1.map
        (fun r => r.tool_call_id) = ["c1", "c2"]
    ∧ (chatTurn (fun _ => ("hi", [⟨"c1", "mystery", []⟩,
          ⟨"c2", "read_file", [("path", "/nope")]⟩]))
        [readFileTool (fun _ => .absent)] permitU 0 [] ()).1 =
        [Message.assistantMsg "hi"
           [⟨"c1", "mystery", []⟩, ⟨"c2", "read_file", [("path", "/nope")]⟩],
         Message.toolResultMsg
           (processCalls [readFileTool (fun _ => .absent)] permitU ()
             [⟨"c1", "mystery", []⟩, ⟨"c2", "read_file", [("path", "/nope")]⟩]).1] := by
  have h := chat_batch_one_result_per_call [readFileTool (fun _ => .absent)] permitU ()
    [⟨"c1", "mystery", []⟩, ⟨"c2", "read_file", [("path", "/nope")]⟩]
    (fun _ => ("hi", [⟨"c1", "mystery", []⟩, ⟨"c2", "read_file", [("path", "/nope")]⟩]))
    0 [] rfl (by decide)
  exact ⟨h.1.trans (by decide), h.2.2.trans (by simp)⟩

/-! ## C3 — configured turn limit -/

/-- **C3** (turn limit modelled from the spec; see `chatLoop`).  When a
maximum turn count is configured and every provider response requests
further tool calls, the loop makes exactly that many provider calls and
stops in the distinct non-error `turn_limit_reached` condition instead
of streaming again. -/
theorem chat_turn_limit_exact {S : Type} (provider : Nat → String × List ToolCall)
    (tools : List Tool) (permit : S → Tool → ToolCall → Bool × S)
    (hall : ∀ i, (provider i).2 ≠ []) :
    ∀ (n turnIdx : Nat) (msgs : List Message) (s : S),
      (chatLoop provider tools permit n turnIdx msgs s).2.1 = n ∧
      (chatLoop provider tools permit n turnIdx msgs s).2.2 = .turn_limit_reached := by
  intro n
  induction n with
  | zero => intro turnIdx msgs s; exact ⟨rfl, rfl⟩
  | succ m ih =>
      intro turnIdx msgs s
      have hcalls : (chatTurn provider tools permit turnIdx msgs s).2.2.isEmpty = false := by
        rw [chatTurn_calls]
        cases hc : (provider turnIdx).2 with
        | nil => exact absurd hc (hall turnIdx)
        | cons c cs => rfl
      have hunfold : chatLoop provider tools permit (m + 1) turnIdx msgs s =
          (let step := chatTurn provider tools permit turnIdx msgs s
           if step.2.2.isEmpty then (step.1, 1, .done)
           else
             let rest := chatLoop provider tools permit m (turnIdx + 1) step.1 step.2.1
             (rest.1, rest.2.1 + 1, rest.2.2)) := rfl
      rw [hunfold]
      simp only [hcalls, Bool.false_eq_true, if_false]
      have hrest := ih (turnIdx + 1)
        (chatTurn provider tools permit turnIdx msgs s).1
        (chatTurn provider tools permit turnIdx msgs s).2.1
      exact ⟨by rw [hrest.1], hrest.2⟩

/-- Witness for C3: a provider that always returns one more tool call,
with a limit of 3 turns — exactly 3 provider calls, ending in
`turn_limit_reached`. -/
theorem chat_turn_limit_exact_witness :
    (chatLoop (fun _ => ("", [⟨"c1", "nope", []⟩])) [] permitU 3 0 [] ()).2.1 = 3 ∧
    (chatLoop (fun _ => ("", [⟨"c1", "nope", []⟩])) [] permitU 3 0 [] ()).2.2 =
      .turn_limit_reached :=
  chat_turn_limit_exact (fun _ => ("", [⟨"c1", "nope", []⟩])) [] permitU
    (fun _ => List.cons_ne_nil _ _) 3 0 [] ()

/-! ## C7 — tool output wrapped as a non-error result -/

/-- **C7**.  A permitted registered tool's returned text is wrapped as a
`ToolResult` with `is_error = false` whatever the text says; in
particular `read_file` on a nonexistent path returns the bracketed
file-not-found text (wrapped non-error by the first part), and a turn
whose response contains tool calls proceeds to another provider call
rather than halting (at least two provider calls happen when the budget
allows). -/
theorem tool_text_wrapped_not_error :
    (∀ {S : Type} (tools : List Tool) (permit : S → Tool → ToolCall → Bool × S)
       (s : S) (c : ToolCall) (t : Tool), toolLookup tools c.name = some t →
         (permit s t c).1 = true →
           (execOne tools permit s c).1 =
             { tool_call_id := c.id, content := t.run c.args, is_error := false })
    ∧ (∀ (fs : String → FsEntry) (p : String), fs p = .absent →
         ReadFileTool.execute fs p = "[error: file not found: " ++ p ++ "]")
    ∧ (∀ {S : Type} (provider : Nat → String × List ToolCall) (tools : List Tool)
         (permit : S → Tool → ToolCall → Bool × S) (n turnIdx : Nat)
         (msgs : List Message) (s : S), (provider turnIdx).2 ≠ [] →
           2 ≤ (chatLoop provider tools permit (n + 2) turnIdx msgs s).2.1) := by
  refine ⟨?_, ?_, ?_⟩
  · intro S tools permit s c t hl hp
    unfold execOne
    rw [hl]
    simp [hp]
  · intro fs p h
    unfold ReadFileTool.execute
    rw [h]
  · intro S provider tools permit n turnIdx msgs s hne
    have hcalls : (chatTurn provider tools permit turnIdx msgs s).2.2.isEmpty = false := by
      rw [chatTurn_calls]
      cases hc : (provider turnIdx).2 with
      | nil => exact absurd hc hne
      | cons c cs => rfl
    have hunfold : chatLoop provider tools permit (n + 1 + 1) turnIdx msgs s =
        (let step := chatTurn provider tools permit turnIdx msgs s
         if step.2.2.isEmpty then (step.1, 1, .done)
         else
           let rest := chatLoop provider tools permit (n + 1) (turnIdx + 1) step.1 step.2.1
           (rest.1, rest.2.1 + 1, rest.2.2)) := rfl
    rw [hunfold]
    simp only [hcalls, Bool.false_eq_true, if_false]
    have := chatLoop_pos provider tools permit n (turnIdx + 1)
      (chatTurn provider tools permit turnIdx msgs s).1
      (chatTurn provider tools permit turnIdx msgs s).2.1
    omega

/-- Witness for C7: a granted `read_file` call on a missing path yields
the bracketed not-found text with `is_error = false`, and the loop with
that response goes on to a second provider call. -/
theorem tool_text_wrapped_not_error_witness :
    (execOne [readFileTool (fun _ => .absent)] permitU ()
        ⟨"c2", "read_file", [("path", "/nope")]⟩).1 =
      { tool_call_id := "c2", content := "[error: file not found: /nope]",
        is_error := false }
    ∧ ReadFileTool.execute (fun _ => .absent) "/nope" = "[error: file not found: /nope]"
    ∧ 2 ≤ (chatLoop (fun _ => ("", [⟨"c2", "read_file", [("path", "/nope")]⟩]))
        [readFileTool (fun _ => .absent)] permitU 2 0 [] ()).2.1 := by
  refine ⟨?_, ?_, ?_⟩
  · exact (tool_text_wrapped_not_error.1 [readFileTool (fun _ => .absent)] permitU ()
      ⟨"c2", "read_file", [("path", "/nope")]⟩ (readFileTool (fun _ => .absent))
      rfl rfl).trans (by decide)
  · exact tool_text_wrapped_not_error.2.1 (fun _ => .absent) "/nope" rfl
  · exact tool_text_wrapped_not_error.2.2
      (fun _ => ("", [⟨"c2", "read_file", [("path", "/nope")]⟩]))
      [readFileTool (fun _ => .absent)] permitU 0 0 [] () (by decide)

/-! ## C6 — path-scoped "always" grants -/

theorem check_allow_of_path_mem (st : PermissionManager) (resolve : String → String)
    (withinCwd : String → Bool) (t : Tool) (c : ToolCall)
    (hnb : ¬ t.name = "bash") (hpb : memS st.path_based t.name = true)
    (hmem : memS (lookupPaths st.allowed_paths t.name)
      (resolve (argGet c.args "path" ".")) = true) :
    PermissionManager.check st resolve withinCwd t c = .allow := by
  simp only [PermissionManager.check]
  by_cases h1 : t.requires_permission = false
  · simp [h1]
  · by_cases h2 : st.allow_all = true
    · simp [h1, h2]
    · by_cases h3 : memS st.auto_allow t.name = true
      · simp [h1, h2, h3]
      · simp [h1, h2, h3, hnb, hpb, hmem]

/-- **C6**.  After an "always" answer for a path-based (non-`bash`) tool
stores the canonical resolved path, `check` allows every later call of
that tool whose path argument resolves to the identical canonical path;
for a call resolving to any different canonical path the grant changes
nothing — `check` gives exactly the outcome it gave before the grant
(re-triggering the prompt or whatever other rule applies). -/
theorem path_always_grant_exact_path_only (st : PermissionManager)
    (resolve : String → String) (withinCwd : String → Bool) (t : Tool) (c c2 : ToolCall)
    (hpb : memS st.path_based t.name = true) (hnb : ¬ t.name = "bash") :
    (resolve (argGet c2.args "path" ".") = resolve (argGet c.args "path" ".") →
      PermissionManager.check (PermissionManager.promptAnswer st resolve t c "a").2
        resolve withinCwd t c2 = .allow)
    ∧ (resolve (argGet c2.args "path" ".") ≠ resolve (argGet c.args "path" ".") →
      PermissionManager.check (PermissionManager.promptAnswer st resolve t c "a").2
        resolve withinCwd t c2 =
        PermissionManager.check st resolve withinCwd t c2) := by
  have e : (PermissionManager.promptAnswer st resolve t c "a").2 =
      { st with allowed_paths :=
          addPath st.allowed_paths t.name (resolve (argGet c.args "path" ".")) } := by
    simp only [PermissionManager.promptAnswer]
    rw [show pyStripLower "a" = "a" from rfl]
    simp [hnb, hpb]
  rw [e]
  constructor
  · intro heq
    refine check_allow_of_path_mem _ resolve withinCwd t c2 hnb (by simpa using hpb) ?_
    show memS (lookupPaths
      (addPath st.allowed_paths t.name (resolve (argGet c.args "path" "."))) t.name)
      (resolve (argGet c2.args "path" ".")) = true
    rw [heq]
    exact memS_lookupPaths_addPath_self _ _ _
  · intro hne2
    have hmm := memS_lookupPaths_addPath_other st.allowed_paths t.name
      (resolve (argGet c.args "path" ".")) t.name (resolve (argGet c2.args "path" "."))
      hne2
    simp [PermissionManager.check, hmm]

/-- Witness for C6: with defaults, after an "always" grant of
`edit_file` for `/w/a.txt` (with `resolve` the identity on these already
canonical paths), a second `edit_file` call on `/w/a.txt` is allowed,
while one on `/w/b.txt` gets exactly the pre-grant outcome — concretely,
it still falls through to the prompt. -/
theorem path_always_grant_exact_path_only_witness :
    PermissionManager.check
        (PermissionManager.promptAnswer defaultPermissionManager id
          ⟨"edit_file", true, fun _ => ""⟩
          ⟨"g1", "edit_file", [("path", "/w/a.txt")]⟩ "a").2
        id (fun _ => false) ⟨"edit_file", true, fun _ => ""⟩
        ⟨"g2", "edit_file", [("path", "/w/a.txt")]⟩ = .allow
    ∧ PermissionManager.check
        (PermissionManager.promptAnswer defaultPermissionManager id
          ⟨"edit_file", true, fun _ => ""⟩
          ⟨"g1", "edit_file", [("path", "/w/a.txt")]⟩ "a").2
        id (fun _ => false) ⟨"edit_file", true, fun _ => ""⟩
        ⟨"g3", "edit_file", [("path", "/w/b.txt")]⟩ =
      PermissionManager.check defaultPermissionManager id (fun _ => false)
        ⟨"edit_file", true, fun _ => ""⟩
        ⟨"g3", "edit_file", [("path", "/w/b.txt")]⟩
    ∧ PermissionManager.check defaultPermissionManager id (fun _ => false)
        ⟨"edit_file", true, fun _ => ""⟩
        ⟨"g3", "edit_file", [("path", "/w/b.txt")]⟩ = .prompt := by
  have h1 := path_always_grant_exact_path_only defaultPermissionManager id
    (fun _ => false) ⟨"edit_file", true, fun _ => ""⟩
    ⟨"g1", "edit_file", [("path", "/w/a.txt")]⟩
    ⟨"g2", "edit_file", [("path", "/w/a.txt")]⟩ (by decide) (by decide)
  have h2 := path_always_grant_exact_path_only defaultPermissionManager id
    (fun _ => false) ⟨"edit_file", true, fun _ => ""⟩
    ⟨"g1", "edit_file", [("path", "/w/a.txt")]⟩
    ⟨"g3", "edit_file", [("path", "/w/b.txt")]⟩ (by decide) (by decide)
  exact ⟨h1.1 rfl, h2.2 (by decide), by decide⟩

/-! ## C4 — malformed tool-call argument text -/

/-- **C4** (counterexample).  The claim says every provider resolves
unparsable argument text to an empty mapping and completes the stream
normally.  The Bedrock loop calls `json.loads` with no handler
(`json.loads(current_tool_input) if current_tool_input else {}`), so on
a stream whose tool-use block carries the malformed text `"{bad"` the
parse raises and the stream aborts instead of completing. -/
theorem bedrock_malformed_args_abort :
    toyParse "\x7bbad" = none ∧
    bedrockRun toyParse [.blockStartToolUse "t1" "grep", .deltaToolInput "\x7bbad",
      .blockStop, .messageStop "tool_use"] = ([], false) :=
  ⟨rfl, rfl⟩

/-- **C4** (amended).  The OpenAI-compatible provider resolves argument
text that fails to parse to an empty mapping and completes the stream
normally (the parse failure is caught); the Bedrock and Vertex providers
resolve only *empty* argument text to an empty mapping and raise —
aborting the stream — on nonempty unparsable text. -/
theorem malformed_args_policy_by_provider :
    (∀ (parse : String → Option MArgs) (s : String), parse s = none →
        openaiParseArgs parse s = [])
    ∧ (∀ (parse : String → Option MArgs), anthropicParseArgs parse "" = some [])
    ∧ (∀ (parse : String → Option MArgs) (s i n : String) (tcs : List ToolCall),
        s ≠ "" → parse s = none →
          bedrockStep parse ⟨some i, some n, s, tcs⟩ .blockStop = none
          ∧ vertexStep parse ⟨some i, some n, s, tcs⟩ .blockStop = none)
    ∧ openaiRun toyParse
        [{ choice := some { tool_calls := [{ index := 0,
                                             id := some "c1",
                                             fname := some "grep",
                                             fargs := some "\x7bbad" }] } },
         { choice := some { finish_reason := some "tool_calls" } }] =
        [{ tool_use_started := true },
         { tool_calls := some [{ id := "c1", name := "grep", args := [] }],
           stop_reason := some "tool_use" }] := by
  refine ⟨?_, fun _ => rfl, ?_, ?_⟩
  · intro parse s hp
    unfold openaiParseArgs
    by_cases hs : s = ""
    · simp [hs]
    · simp [hs, hp]
  · intro parse s i n tcs hs hp
    constructor
    · simp [bedrockStep, anthropicParseArgs, hs, hp]
    · simp [vertexStep, anthropicParseArgs, hs, hp]
  · rfl

/-- Witness for C4 (amended) at the concrete parser stand-in and the
malformed text `"{bad"`: the OpenAI path degrades to the empty mapping
while one Bedrock/Vertex block-stop step on the same text raises. -/
theorem malformed_args_policy_by_provider_witness :
    openaiParseArgs toyParse "\x7bbad" = []
    ∧ bedrockStep toyParse ⟨some "t1", some "grep", "\x7bbad", []⟩ .blockStop = none
    ∧ vertexStep toyParse ⟨some "t1", some "grep", "\x7bbad", []⟩ .blockStop = none := by
  have h := malformed_args_policy_by_provider
  have h3 := h.2.2.1 toyParse "\x7bbad" "t1" "grep" [] (by decide) (by decide)
  exact ⟨h.1 toyParse "\x7bbad" (by decide), h3.1, h3.2⟩

/-! ## C5 — tool_use_started discipline -/

/-- Number of `tool_use_started` signals in an event sequence. -/
def countTUS (evs : List StreamEvent) : Nat :=
  (evs.filter (fun e => e.tool_use_started)).length

theorem countTUS_append (a b : List StreamEvent) :
    countTUS (a ++ b) = countTUS a + countTUS b := by
  simp [countTUS]

theorem countTUS_eq_zero_of (l : List StreamEvent)
    (h : ∀ e ∈ l, e.tool_use_started = false) : countTUS l = 0 := by
  induction l with
  | nil => rfl
  | cons a as ih =>
      have ha := h a (List.mem_cons_self a as)
      have hr := ih (fun e he => h e (List.mem_cons_of_mem a he))
      simp [countTUS, List.filter, ha] at hr ⊢
      exact hr

theorem mem_textEventsOf (o : Option String) (e : StreamEvent)
    (he : e ∈ textEventsOf o) : ∃ s, e = { text := s } := by
  cases o with
  | none => simp [textEventsOf] at he
  | some s =>
      by_cases h : s.isEmpty
      · simp [textEventsOf, h] at he
      · simp [textEventsOf, h] at he
        exact ⟨s, he⟩

theorem otcStep_ne_nil (bs : List (Nat × OBuilder)) (tc : OTCDelta) (h : bs ≠ []) :
    (otcStep bs tc).1 ≠ [] ∧ (otcStep bs tc).2 = [] := by
  unfold otcStep
  cases hb : bLookup bs tc.index with
  | some b =>
      refine ⟨?_, rfl⟩
      simp [bUpdate, h]
  | none =>
      have hie : bs.isEmpty = false := by
        cases bs with
        | nil => exact absurd rfl h
        | cons a as => rfl
      refine ⟨?_, by simp [hie]⟩
      simp [bUpdate]

theorem otcStep_nil (tc : OTCDelta) :
    (otcStep [] tc).1 ≠ [] ∧ (otcStep [] tc).2 = [{ tool_use_started := true }] := by
  unfold otcStep
  exact ⟨by simp [bLookup, bUpdate], by simp [bLookup]⟩

theorem otcStep_events (bs : List (Nat × OBuilder)) (tc : OTCDelta) :
    (otcStep bs tc).2 = [] ∨ (otcStep bs tc).2 = [{ tool_use_started := true }] := by
  unfold otcStep
  cases hb : bLookup bs tc.index with
  | some b => exact Or.inl rfl
  | none =>
      by_cases hie : bs.isEmpty
      · exact Or.inr (by simp [hie])
      · exact Or.inl (by simp [hie])

theorem otcFold_ne_nil :
    ∀ (tcs : List OTCDelta) (bs : List (Nat × OBuilder)), bs ≠ [] →
      (otcFold bs tcs).1 ≠ [] ∧ countTUS (otcFold bs tcs).2 = 0 := by
  intro tcs
  induction tcs with
  | nil => intro bs h; exact ⟨h, rfl⟩
  | cons tc rest ih =>
      intro bs h
      have hs := otcStep_ne_nil bs tc h
      have hr := ih (otcStep bs tc).1 hs.1
      refine ⟨hr.1, ?_⟩
      show countTUS ((otcStep bs tc).2 ++ (otcFold (otcStep bs tc).1 rest).2) = 0
      rw [countTUS_append, hs.2, hr.2]
      rfl

theorem otcFold_count (tcs : List OTCDelta) (bs : List (Nat × OBuilder)) :
    countTUS (otcFold bs tcs).2 ≤ 1 ∧
      ((otcFold bs tcs).1 = [] → countTUS (otcFold bs tcs).2 = 0) := by
  cases hbs : bs with
  | cons a as =>
      have h := otcFold_ne_nil tcs (a :: as) (List.cons_ne_nil a as)
      refine ⟨?_, fun hc => absurd hc h.1⟩
      rw [h.2]
      omega
  | nil =>
      cases tcs with
      | nil => exact ⟨by simp [otcFold, countTUS], fun _ => rfl⟩
      | cons tc rest =>
          have hs := otcStep_nil tc
          have hr := otcFold_ne_nil rest (otcStep [] tc).1 hs.1
          constructor
          · show countTUS ((otcStep [] tc).2 ++ (otcFold (otcStep [] tc).1 rest).2) ≤ 1
            rw [countTUS_append, hs.2, hr.2]
            simp [countTUS]
          · intro hc
            exact absurd hc hr.1

theorem mem_otcFold_started :
    ∀ (tcs : List OTCDelta) (bs : List (Nat × OBuilder)) (e : StreamEvent),
      e ∈ (otcFold bs tcs).2 → e = { tool_use_started := true } := by
  intro tcs
  induction tcs with
  | nil => intro bs e he; simp [otcFold] at he
  | cons tc rest ih =>
      intro bs e he
      have hm : e ∈ (otcStep bs tc).2 ++ (otcFold (otcStep bs tc).1 rest).2 := he
      rw [List.mem_append] at hm
      cases hm with
      | inl h1 =>
          cases otcStep_events bs tc with
          | inl hz => rw [hz] at h1; simp at h1
          | inr ho => rw [ho] at h1; simpa using h1
      | inr h2 => exact ih (otcStep bs tc).1 e h2

theorem usageUpd_builders (st : OState) (u : Option Usage) :
    (usageUpd st u).builders = st.builders := by
  cases u <;> rfl

theorem ochunkStep_builders_of_ne (st : OState) (ch : OChunk)
    (h : st.builders ≠ []) :
    (ochunkStep st ch).1.builders ≠ [] ∧ countTUS (ochunkStep st ch).2 = 0 := by
  unfold ochunkStep
  cases hch : ch.choice with
  | none => exact ⟨by simpa [usageUpd_builders] using h, rfl⟩
  | some d =>
      have hne : (usageUpd st ch.usage).builders ≠ [] := by
        rw [usageUpd_builders]; exact h
      have hf := otcFold_ne_nil d.tool_calls _ hne
      refine ⟨by simpa using hf.1, ?_⟩
      show countTUS (textEventsOf d.content ++ _) = 0
      rw [countTUS_append, hf.2,
        countTUS_eq_zero_of _ (fun e he => by
          obtain ⟨s, rfl⟩ := mem_textEventsOf d.content e he
          rfl)]

theorem ochunkStep_count (st : OState) (ch : OChunk) :
    countTUS (ochunkStep st ch).2 ≤ 1 ∧
      ((ochunkStep st ch).1.builders = [] →
        st.builders = [] ∧ countTUS (ochunkStep st ch).2 = 0) := by
  unfold ochunkStep
  cases hch : ch.choice with
  | none =>
      refine ⟨by simp [countTUS], fun hb => ⟨?_, rfl⟩⟩
      rw [usageUpd_builders] at hb
      exact hb
  | some d =>
      have htext : countTUS (textEventsOf d.content) = 0 :=
        countTUS_eq_zero_of _ (fun e he => by
          obtain ⟨s, rfl⟩ := mem_textEventsOf d.content e he
          rfl)
      have hfc := otcFold_count d.tool_calls (usageUpd st ch.usage).builders
      constructor
      · show countTUS (textEventsOf d.content ++ _) ≤ 1
        rw [countTUS_append, htext]
        omega
      · intro hb
        have hb2 : (otcFold (usageUpd st ch.usage).builders d.tool_calls).1 = [] := by
          simpa using hb
        have hb3 : (usageUpd st ch.usage).builders = [] := by
          by_contra hne
          exact (otcFold_ne_nil d.tool_calls _ hne).1 hb2
        refine ⟨by rw [usageUpd_builders] at hb3; exact hb3, ?_⟩
        show countTUS (textEventsOf d.content ++ _) = 0
        rw [countTUS_append, htext, hfc.2 hb2]

theorem openaiLoop_count :
    ∀ (chunks : List OChunk) (st : OState),
      countTUS (openaiLoop st chunks).2 ≤ if st.builders = [] then 1 else 0 := by
  intro chunks
  induction chunks with
  | nil => intro st; simp [openaiLoop, countTUS]
  | cons ch rest ih =>
      intro st
      show countTUS ((ochunkStep st ch).2 ++ (openaiLoop (ochunkStep st ch).1 rest).2) ≤ _
      rw [countTUS_append]
      by_cases hb : st.builders = []
      · rw [if_pos hb]
        by_cases hb2 : (ochunkStep st ch).1.builders = []
        · have h1 := (ochunkStep_count st ch).2 hb2
          have h2 := ih (ochunkStep st ch).1
          rw [if_pos hb2] at h2
          rw [h1.2]
          omega
        · have h1 := (ochunkStep_count st ch).1
          have h2 := ih (ochunkStep st ch).1
          rw [if_neg hb2] at h2
          omega
      · have h1 := ochunkStep_builders_of_ne st ch hb
        have h2 := ih (ochunkStep st ch).1
        rw [if_neg h1.1] at h2
        rw [if_neg hb, h1.2]
        omega

theorem mem_ochunkStep_stop_none (st : OState) (ch : OChunk) (e : StreamEvent)
    (he : e ∈ (ochunkStep st ch).2) : e.stop_reason = none := by
  revert he
  unfold ochunkStep
  cases hch : ch.choice with
  | none => intro he; simp at he
  | some d =>
      intro he
      have hm : e ∈ textEventsOf d.content ++
          (otcFold (usageUpd st ch.usage).builders d.tool_calls).2 := he
      rw [List.mem_append] at hm
      cases hm with
      | inl h1 =>
          obtain ⟨s, rfl⟩ := mem_textEventsOf d.content e h1
          rfl
      | inr h2 =>
          rw [mem_otcFold_started d.tool_calls _ e h2]

theorem openaiLoop_stop_none :
    ∀ (chunks : List OChunk) (st : OState) (e : StreamEvent),
      e ∈ (openaiLoop st chunks).2 → e.stop_reason = none := by
  intro chunks
  induction chunks with
  | nil => intro st e he; simp [openaiLoop] at he
  | cons ch rest ih =>
      intro st e he
      have hm : e ∈ (ochunkStep st ch).2 ++ (openaiLoop (ochunkStep st ch).1 rest).2 := he
      rw [List.mem_append] at hm
      cases hm with
      | inl h1 => exact mem_ochunkStep_stop_none st ch e h1
      | inr h2 => exact ih (ochunkStep st ch).1 e h2

theorem openaiFinal_no_started (parse : String → Option MArgs) (st : OState)
    (e : StreamEvent) (he : e ∈ openaiFinal parse st) : e.tool_use_started = false := by
  revert he
  unfold openaiFinal
  cases hf : st.finalFinish with
  | none => intro he; simp at he
  | some fr =>
      intro he
      simp at he
      rw [he]

theorem bedrockStep_started_false (parse : String → Option MArgs) (st : ToolAccum)
    (ev : BWireEvent) (out : ToolAccum × List StreamEvent)
    (h : bedrockStep parse st ev = some out) :
    ∀ e ∈ out.2, e.tool_use_started = false := by
  intro e he
  cases ev with
  | blockStartToolUse i n =>
      obtain rfl := Option.some.inj h
      simp at he
  | blockStartOther =>
      obtain rfl := Option.some.inj h
      simp at he
  | deltaText s =>
      obtain rfl := Option.some.inj h
      simp at he
      rw [he]
  | deltaToolInput s =>
      obtain rfl := Option.some.inj h
      simp at he
  | blockStop =>
      simp only [bedrockStep] at h
      cases hA : st.curId with
      | none =>
          rw [hA] at h
          obtain rfl := Option.some.inj h
          simp at he
      | some i =>
          rw [hA] at h
          cases hB : st.curName with
          | none =>
              rw [hB] at h
              obtain rfl := Option.some.inj h
              simp at he
          | some n =>
              rw [hB] at h
              cases hP : anthropicParseArgs parse st.curInput with
              | none => rw [hP] at h; exact absurd h (by simp)
              | some args =>
                  rw [hP] at h
                  obtain rfl := Option.some.inj h
                  simp at he
  | messageStop reason =>
      obtain rfl := Option.some.inj h
      simp at he
      rw [he]

theorem bedrockRunFrom_started_false (parse : String → Option MArgs) :
    ∀ (events : List BWireEvent) (st : ToolAccum) (e : StreamEvent),
      e ∈ (bedrockRunFrom parse st events).1 → e.tool_use_started = false := by
  intro events
  induction events with
  | nil => intro st e he; simp [bedrockRunFrom] at he
  | cons ev rest ih =>
      intro st e he
      unfold bedrockRunFrom at he
      cases hstep : bedrockStep parse st ev with
      | none => rw [hstep] at he; simp at he
      | some out =>
          rw [hstep] at he
          simp only [List.mem_append] at he
          cases he with
          | inl h1 => exact bedrockStep_started_false parse st ev out hstep e h1
          | inr h2 => exact ih out.1 e h2

theorem countTUS_otcFold_cons_nil (tc : OTCDelta) (tcs : List OTCDelta) :
    countTUS (otcFold [] (tc :: tcs)).2 = 1 := by
  have hs := otcStep_nil tc
  have hr := otcFold_ne_nil tcs (otcStep [] tc).1 hs.1
  show countTUS ((otcStep [] tc).2 ++ (otcFold (otcStep [] tc).1 tcs).2) = 1
  rw [countTUS_append, hs.2, hr.2]
  rfl

theorem ochunkStep_fires (st : OState) (ch : OChunk) (d : OChoiceDelta)
    (hc : ch.choice = some d) (hne : d.tool_calls ≠ []) (hb : st.builders = []) :
    countTUS (ochunkStep st ch).2 = 1 := by
  have htext : countTUS (textEventsOf d.content) = 0 :=
    countTUS_eq_zero_of _ (fun e he => by
      obtain ⟨s, rfl⟩ := mem_textEventsOf d.content e he
      rfl)
  have hb2 : (usageUpd st ch.usage).builders = [] := by
    rw [usageUpd_builders]; exact hb
  simp only [ochunkStep, hc]
  rw [countTUS_append, htext, hb2]
  cases hdt : d.tool_calls with
  | nil => exact absurd hdt hne
  | cons tc tcs => rw [countTUS_otcFold_cons_nil tc tcs]

theorem openaiLoop_fires :
    ∀ (chunks : List OChunk) (st : OState), st.builders = [] →
      (∃ ch ∈ chunks, ∃ d, ch.choice = some d ∧ d.tool_calls ≠ []) →
        1 ≤ countTUS (openaiLoop st chunks).2 := by
  intro chunks
  induction chunks with
  | nil =>
      intro st hb hex
      obtain ⟨ch, hch, _⟩ := hex
      simp at hch
  | cons ch rest ih =>
      intro st hb hex
      show 1 ≤ countTUS ((ochunkStep st ch).2 ++ (openaiLoop (ochunkStep st ch).1 rest).2)
      rw [countTUS_append]
      by_cases htrig : ∃ d, ch.choice = some d ∧ d.tool_calls ≠ []
      · obtain ⟨d, hc, hne⟩ := htrig
        rw [ochunkStep_fires st ch d hc hne hb]
        omega
      · have hb2 : (ochunkStep st ch).1.builders = [] := by
          cases hc : ch.choice with
          | none =>
              simp only [ochunkStep, hc]
              rw [usageUpd_builders]
              exact hb
          | some d =>
              have hdt : d.tool_calls = [] := by
                by_contra hne2
                exact htrig ⟨d, hc, hne2⟩
              simp only [ochunkStep, hc, hdt, otcFold]
              rw [usageUpd_builders]
              exact hb
        have hex2 : ∃ ch2 ∈ rest, ∃ d, ch2.choice = some d ∧ d.tool_calls ≠ [] := by
          obtain ⟨ch2, hmem, d, hc, hne⟩ := hex
          rcases List.mem_cons.mp hmem with rfl | hmem2
          · exact absurd ⟨d, hc, hne⟩ htrig
          · exact ⟨ch2, hmem2, d, hc, hne⟩
        have := ih (ochunkStep st ch).1 hb2 hex2
        omega

theorem openaiRun_count_le_one (parse : String → Option MArgs) (chunks : List OChunk) :
    countTUS (openaiRun parse chunks) ≤ 1 := by
  show countTUS ((openaiLoop {} chunks).2 ++ openaiFinal parse (openaiLoop {} chunks).1) ≤ 1
  rw [countTUS_append,
    countTUS_eq_zero_of _ (openaiFinal_no_started parse (openaiLoop {} chunks).1)]
  have h := openaiLoop_count chunks {}
  rw [if_pos rfl] at h
  omega

/-- **C5** (counterexample).  The claim says every provider delivers
`tool_use_started` before the first argument fragment whenever a tool
call is forthcoming.  The Bedrock stream loop (whose own `StreamEvent`
dataclass does not even have the field) never yields it: a Bedrock wire
stream carrying one complete tool call produces only the terminal event,
with no `tool_use_started` anywhere. -/
theorem bedrock_no_tool_use_started_signal :
    bedrockRun toyParse [.blockStartToolUse "t1" "grep", .deltaToolInput "{}",
        .blockStop, .messageStop "tool_use"] =
      ([{ tool_calls := some [{ id := "t1", name := "grep", args := [] }],
          stop_reason := some "tool_use" }], true)
    ∧ countTUS (bedrockRun toyParse [.blockStartToolUse "t1" "grep",
        .deltaToolInput "{}", .blockStop, .messageStop "tool_use"]).1 = 0 :=
  ⟨rfl, rfl⟩

/-- **C5** (amended).  The OpenAI-compatible provider delivers
`tool_use_started` exactly once per turn whenever any tool call is
forthcoming: the signal is yielded while processing the first tool-call
fragment — when no builder exists yet, before the fragment is stored —
it is never yielded again once a builder exists, and it precedes the
terminal event (chunk-loop events carry no stop reason; the final
segment carries no start signal).  The Vertex provider yields it when
each tool-use block starts — before that block's argument fragments are
consumed, which themselves yield nothing — and hence possibly more than
once per turn (twice in the concrete two-call stream).  The Bedrock
provider never yields it at all. -/
theorem tool_use_started_discipline_by_provider :
    (∀ (parse : String → Option MArgs) (chunks : List OChunk),
        countTUS (openaiRun parse chunks) ≤ 1)
    ∧ (∀ (parse : String → Option MArgs) (chunks : List OChunk),
        (∃ ch ∈ chunks, ∃ d, ch.choice = some d ∧ d.tool_calls ≠ []) →
          countTUS (openaiRun parse chunks) = 1)
    ∧ (∀ (tc : OTCDelta), (otcStep [] tc).2 = [{ tool_use_started := true }])
    ∧ (∀ (bs : List (Nat × OBuilder)) (tc : OTCDelta), bs ≠ [] →
        (otcStep bs tc).2 = [])
    ∧ (∀ (parse : String → Option MArgs) (chunks : List OChunk),
        openaiRun parse chunks = (openaiLoop {} chunks).2 ++
          openaiFinal parse (openaiLoop {} chunks).1)
    ∧ (∀ (_parse : String → Option MArgs) (chunks : List OChunk) (e : StreamEvent),
        e ∈ (openaiLoop ({} : OState) chunks).2 → e.stop_reason = none)
    ∧ (∀ (parse : String → Option MArgs) (st : OState) (e : StreamEvent),
        e ∈ openaiFinal parse st → e.tool_use_started = false)
    ∧ (∀ (parse : String → Option MArgs) (st : ToolAccum) (i n : String),
        vertexStep parse st (.blockStartToolUse i n) =
          some ({ st with curId := some i, curName := some n, curInput := "" },
                [{ tool_use_started := true }]))
    ∧ (∀ (parse : String → Option MArgs) (st : ToolAccum) (s : String),
        vertexStep parse st (.deltaInputJson s) =
          some ({ st with curInput := st.curInput ++ s }, []))
    ∧ countTUS (vertexRun toyParse [.blockStartToolUse "t1" "grep",
        .deltaInputJson "{}", .blockStop, .blockStartToolUse "t2" "glob",
        .deltaInputJson "{}", .blockStop, .messageStopEv] "tool_use").1 = 2
    ∧ (∀ (parse : String → Option MArgs) (events : List BWireEvent) (e : StreamEvent),
        e ∈ (bedrockRun parse events).1 → e.tool_use_started = false) := by
  refine ⟨openaiRun_count_le_one, ?_, fun tc => (otcStep_nil tc).2,
    fun bs tc hbs => (otcStep_ne_nil bs tc hbs).2, fun _ _ => rfl, ?_,
    openaiFinal_no_started, fun _ _ _ _ => rfl, fun _ _ _ => rfl, rfl, ?_⟩
  · intro parse chunks hex
    have hle := openaiRun_count_le_one parse chunks
    have hge : 1 ≤ countTUS (openaiRun parse chunks) := by
      show 1 ≤ countTUS ((openaiLoop {} chunks).2 ++
        openaiFinal parse (openaiLoop {} chunks).1)
      rw [countTUS_append]
      have := openaiLoop_fires chunks {} rfl hex
      omega
    omega
  · intro _parse chunks e he
    exact openaiLoop_stop_none chunks {} e he
  · intro parse events e he
    exact bedrockRunFrom_started_false parse events {} e he

/-- Witness for C5 (amended): on a concrete OpenAI chunk stream carrying
two interleaved tool calls, `tool_use_started` is delivered exactly once;
one concrete first-fragment step yields the signal and one concrete
later-fragment step (a builder already present) yields nothing; one
concrete Vertex block start yields the signal. -/
theorem tool_use_started_discipline_by_provider_witness :
    countTUS (openaiRun toyParse
        [{ choice := some { tool_calls := [{ index := 0, fargs := some "{}" },
                                           { index := 1, fargs := some "{}" }] } },
         { choice := some { tool_calls := [{ index := 0, fargs := some "{}" }] } },
         { choice := some { finish_reason := some "tool_calls" } }]) = 1
    ∧ (otcStep [] { index := 0, id := some "c1", fname := some "grep",
                    fargs := some "{}" }).2 = [{ tool_use_started := true }]
    ∧ (otcStep [(0, { id := "c1", fname := "grep", fargs := "{}" })]
          { index := 0, fargs := some "{}" }).2 = []
    ∧ vertexStep toyParse {} (.blockStartToolUse "t9" "grep") =
        some ({ curId := some "t9", curName := some "grep", curInput := "" },
              [{ tool_use_started := true }]) := by
  refine ⟨?_, ?_, ?_, ?_⟩
  · exact tool_use_started_discipline_by_provider.2.1 toyParse
      [{ choice := some { tool_calls := [{ index := 0, fargs := some "{}" },
                                         { index := 1, fargs := some "{}" }] } },
       { choice := some { tool_calls := [{ index := 0, fargs := some "{}" }] } },
       { choice := some { finish_reason := some "tool_calls" } }]
      ⟨{ choice := some { tool_calls := [{ index := 0, fargs := some "{}" },
                                         { index := 1, fargs := some "{}" }] } },
       List.mem_cons_self _ _,
       { tool_calls := [{ index := 0, fargs := some "{}" },
                        { index := 1, fargs := some "{}" }] },
       rfl, by decide⟩
  · exact tool_use_started_discipline_by_provider.2.2.1
      { index := 0, id := some "c1", fname := some "grep", fargs := some "{}" }
  · exact tool_use_started_discipline_by_provider.2.2.2.1
      [(0, { id := "c1", fname := "grep", fargs := "{}" })]
      { index := 0, fargs := some "{}" } (by decide)
  · exact tool_use_started_discipline_by_provider.2.2.2.2.2.2.2.1 toyParse {} "t9" "grep"
